import Mathlib

/-!
Shallow embedding of the ingestion/backfill core of the pybites_blog
pipeline (sitemap URL upsert, bronze merge, silver windowed backfill,
gold replication, link classification, chunking and RAG ingestion),
together with theorems settling the specification claims.

Timestamps are modelled as calendar structures ordered
lexicographically, matching SQL `timestamp` comparison semantics.
Tables are modelled as lists of rows (multisets with an insertion
order); SQL `insert ... select` appends the selected rows.
-/

/-- Calendar timestamp, the model of a SQL `timestamp` value
(`year-month-day hour:minute:second`). -/
structure Timestamp where
  y : Nat
  mo : Nat
  d : Nat
  h : Nat
  mi : Nat
  s : Nat
deriving DecidableEq, Repr

namespace Timestamp

/-- Lexicographic order on timestamp fields; this is how SQL compares
`timestamp` values (model of DuckDB and Postgres comparison). -/
def le (a b : Timestamp) : Bool :=
  if a.y ≠ b.y then a.y < b.y
  else if a.mo ≠ b.mo then a.mo < b.mo
  else if a.d ≠ b.d then a.d < b.d
  else if a.h ≠ b.h then a.h < b.h
  else if a.mi ≠ b.mi then a.mi < b.mi
  else a.s ≤ b.s

/-- Strict lexicographic order on timestamps. -/
def lt (a b : Timestamp) : Bool :=
  le a b && a ≠ b

end Timestamp

/-- Model of the SQL predicate `x between lo and hi` on timestamps
(inclusive on both ends). -/
def tsBetween (x lo hi : Timestamp) : Bool :=
  Timestamp.le lo x && Timestamp.le x hi

/-- Row of the sitemap URL table created by `create_url_table` in
`backfill_blogs.py`: `(url text, last_modified timestamp)` (the
auto-increment `id` column carries no information and is omitted). -/
structure UrlRow where
  url : String
  last_modified : Timestamp
deriving DecidableEq, Repr

/-- Generic model of the anti-join insert shared by `upsert_urls`
(`backfill_blogs.py` lines 78-97) and the bronze merge in
`create_bronze_table` (`bronze_tables.py` lines 70-75):

`insert into main select t.* from staging t left join main on
 t.key = main.key where main.key is null or t.chg <> main.chg`

For each staging row `t`, the left join pairs `t` with every `main`
row sharing its key (or with a single null row when there is none);
the `where` clause keeps the null row and every pairing whose change
column differs, and one copy of `t` is inserted per surviving pairing. -/
def antiJoinRows {ρ κ χ : Type} [DecidableEq κ] [DecidableEq χ]
    (key : ρ → κ) (chg : ρ → χ) (main batch : List ρ) : List ρ :=
  batch.flatMap (fun t =>
    let ms := main.filter (fun r => key r = key t)
    if ms.isEmpty then [t]
    else ms.filterMap (fun r => if chg r ≠ chg t then some t else none))

/-- Model of `upsert_urls(table_name, params)` in `backfill_blogs.py`:
on an empty batch it warns and returns leaving the table unchanged;
otherwise it loads the batch into a staging table and runs the
anti-join insert keyed by `url` with change column `last_modified`.
The function returns the new table contents. -/
def upsert_urls (main batch : List UrlRow) : List UrlRow :=
  if batch.isEmpty then main
  else main ++ antiJoinRows UrlRow.url UrlRow.last_modified main batch

/-- Model of `create_url_table` in `backfill_blogs.py`: creates the
(empty) sitemap URL table when it does not exist. -/
def create_url_table : List UrlRow := []

/-- Row of the bronze table `bronze_pybites_blogs` created in
`bronze_tables.py` (`run_bronze_pipeline`). -/
structure BronzeRow where
  url : String
  title : String
  date_published : Timestamp
  date_modified : Timestamp
  author : String
  tags : List String
  content_links : List (String × String)
  content : List String
deriving DecidableEq, Repr

/-- Model of the merge step of `create_bronze_table` in
`bronze_tables.py`: the parquet batch is loaded into `tmp_table` and
merged into the bronze table by the anti-join insert keyed by `url`
with change column `date_modified`. -/
def create_bronze_table (main batch : List BronzeRow) : List BronzeRow :=
  main ++ antiJoinRows BronzeRow.url BronzeRow.date_modified main batch

/-- Split a character list on a single delimiter character, keeping
empty pieces: the pieces of `split_part`'s delimiter split (the
queries only ever split on `'/'`). -/
def splitOnCharAux (c : Char) : List Char → List Char → List String
  | [], cur => [String.mk cur.reverse]
  | x :: xs, cur =>
      if x = c then String.mk cur.reverse :: splitOnCharAux c xs []
      else splitOnCharAux c xs (x :: cur)

/-- Model of DuckDB `split_part(s, delim, n)` for a single-character
delimiter: split `s` on `delim`; a positive `n` selects the n-th
piece (1-based), a negative `n` counts from the end (`-1` is the
last piece); an out-of-range index yields the empty string. -/
def split_part (s : String) (delim : Char) (n : Int) : String :=
  let parts := splitOnCharAux delim s.toList []
  if 0 < n then parts.getD (n.toNat - 1) ""
  else if n < 0 then parts.getD (parts.length - n.natAbs) ""
  else ""

/-- Model of `array_length(regexp_split_to_array(p, '\s+'))`: the
number of fields obtained by splitting `p` on maximal whitespace
runs, counting empty leading/trailing fields, as the regex split
does (an empty string yields one empty field, hence count 1). -/
def wsSplitCount (p : String) : Nat :=
  let step := fun (st : Nat × Bool) (c : Char) =>
    if c.isWhitespace then
      if st.2 then st else (st.1 + 1, true)
    else (st.1, false)
  (p.toList.foldl step (0, false)).1 + 1

/-- Model of the civil-calendar day number used by DuckDB
`date_diff('day', a, b)`: days since 1970-01-01 of the date part,
computed by the standard days-from-civil algorithm. -/
def daysFromCivil (y m d : Int) : Int :=
  let y' := if m ≤ 2 then y - 1 else y
  let era := (if 0 ≤ y' then y' else y' - 399) / 400
  let yoe := y' - era * 400
  let mp := (m + 9) % 12
  let doy := (153 * mp + 2) / 5 + d - 1
  let doe := yoe * 365 + yoe / 4 - yoe / 100 + doy
  era * 146097 + doe - 719468

/-- Model of DuckDB `date_diff('day', a, b)`: the signed number of
day boundaries between the date parts of the two timestamps. -/
def dateDiffDay (a b : Timestamp) : Int :=
  daysFromCivil b.y b.mo b.d - daysFromCivil a.y a.mo a.d

/-- Row of the silver table `silver_pybites_blogs` created by
`create_silver_table` in `silver_tables.py`. The `row_id uuid
default uuid()` column is modelled as the value of a per-database
uuid-generation counter at insert time: distinct draws from the
generator yield distinct values, which is all the claims rely on. -/
structure SilverRow where
  row_id : Nat
  url : String
  domain : String
  category : String
  url_title : String
  date_published : Timestamp
  date_modified : Timestamp
  days_between_published_modified : Int
  title : String
  author : String
  tags : List String
  content_links : List (String × String)
  content : List String
  content_paragraphs : Nat
  total_content_words : Nat
  year : Nat
  month : Nat
deriving DecidableEq, Repr

/-- Silver row with the generated `row_id` column erased: the
deterministic part of a `SilverRow`. -/
structure SilverRowData where
  url : String
  domain : String
  category : String
  url_title : String
  date_published : Timestamp
  date_modified : Timestamp
  days_between_published_modified : Int
  title : String
  author : String
  tags : List String
  content_links : List (String × String)
  content : List String
  content_paragraphs : Nat
  total_content_words : Nat
  year : Nat
  month : Nat
deriving DecidableEq, Repr

/-- Projection of a silver row onto its deterministic columns
(drop the generated `row_id`). -/
def SilverRow.stripId (r : SilverRow) : SilverRowData :=
  { url := r.url, domain := r.domain, category := r.category
  , url_title := r.url_title, date_published := r.date_published
  , date_modified := r.date_modified
  , days_between_published_modified := r.days_between_published_modified
  , title := r.title, author := r.author, tags := r.tags
  , content_links := r.content_links, content := r.content
  , content_paragraphs := r.content_paragraphs
  , total_content_words := r.total_content_words
  , year := r.year, month := r.month }

/-- Transformation applied by the insert of `backfill_silver_table`
(`silver_tables.py` lines 91-111) to one deduplicated bronze row:
derive domain/category/url_title from the url with `split_part`,
the day difference, paragraph and word counts, and year/month
extracted from `date_modified`. -/
def silverTransform (b : BronzeRow) : SilverRowData :=
  { url := b.url
  , domain := split_part b.url '/' 1 ++ "//" ++ split_part b.url '/' 3
  , category := split_part b.url '/' 4
  , url_title := split_part b.url '/' (-2)
  , date_published := b.date_published
  , date_modified := b.date_modified
  , days_between_published_modified := dateDiffDay b.date_published b.date_modified
  , title := b.title
  , author := b.author
  , tags := b.tags
  , content_links := b.content_links
  , content := b.content
  , content_paragraphs := b.content.length
  , total_content_words := (b.content.map wsSplitCount).sum
  , year := b.date_modified.y
  , month := b.date_modified.mo }

/-- Attach the generated `row_id` values to a list of transformed
rows: the uuid generator hands out `nextId`, `nextId + 1`, ... in
insert order. -/
def assignRowIds (nextId : Nat) : List SilverRowData → List SilverRow
  | [] => []
  | d :: rest =>
      { row_id := nextId
      , url := d.url, domain := d.domain, category := d.category
      , url_title := d.url_title, date_published := d.date_published
      , date_modified := d.date_modified
      , days_between_published_modified := d.days_between_published_modified
      , title := d.title, author := d.author, tags := d.tags
      , content_links := d.content_links, content := d.content
      , content_paragraphs := d.content_paragraphs
      , total_content_words := d.total_content_words
      , year := d.year, month := d.month } :: assignRowIds (nextId + 1) rest

/-- Urls of `rows` in order of first occurrence, without duplicates:
the partitions produced by `partition by url`. -/
def uniqUrls (rows : List BronzeRow) : List String :=
  rows.foldl (fun acc b => if acc.contains b.url then acc else acc ++ [b.url]) []

/-- Model of `row_number() over (partition by url order by
date_modified desc)` followed by `rn = 1`: among the rows of a url
partition, the row with the greatest `date_modified` (the first such
row in scan order when several tie). -/
def bestForUrl (rows : List BronzeRow) (u : String) : Option BronzeRow :=
  (rows.filter (fun b => b.url = u)).foldl
    (fun acc b =>
      match acc with
      | none => some b
      | some a => if Timestamp.lt a.date_modified b.date_modified then some b else some a)
    none

/-- Deduplicated rows of the windowed bronze CTE: one row per url,
the rank-1 row of each partition. -/
def rank1 (rows : List BronzeRow) : List BronzeRow :=
  (uniqUrls rows).filterMap (bestForUrl rows)

/-- Model of `backfill_silver_table(bronze, silver, start, end)` in
`silver_tables.py`: inside one transaction, delete the silver rows
whose `date_modified` lies in the window, then insert the transformed
rank-1 rows of the bronze table restricted to the window. Takes and
returns the uuid-generation counter along with the table contents. -/
def backfill_silver_table (bronze : List BronzeRow) (silver : List SilverRow)
    (start_date end_date : Timestamp) (nextId : Nat) : List SilverRow × Nat :=
  let kept := silver.filter (fun r => ¬ tsBetween r.date_modified start_date end_date)
  let windowed := bronze.filter (fun b => tsBetween b.date_modified start_date end_date)
  let dedup := (rank1 windowed).map silverTransform
  (kept ++ assignRowIds nextId dedup, nextId + dedup.length)

/-- Leap-year test of the proleptic Gregorian calendar, as used by
Python `datetime.date`. -/
def isLeapYear (y : Nat) : Bool :=
  y % 4 = 0 && (y % 100 ≠ 0 || y % 400 = 0)

/-- Number of days of month `m` of year `y` (Gregorian), used to
validate Python `date(y, m, d)`. -/
def daysInMonth (y m : Nat) : Nat :=
  if m = 2 then (if isLeapYear y then 29 else 28)
  else if m = 4 ∨ m = 6 ∨ m = 9 ∨ m = 11 then 30
  else 31

/-- Model of the Python constructor `datetime.date(y, m, d)`: returns
the date when the arguments are in range and `none` when the
constructor raises `ValueError` (in particular for month 13). -/
def pythonDate (y m d : Nat) : Option (Nat × Nat × Nat) :=
  if 1 ≤ y ∧ 1 ≤ m ∧ m ≤ 12 ∧ 1 ≤ d ∧ d ≤ daysInMonth y m then some (y, m, d)
  else none

/-- Model of the expression `(date(y, m + 1, 1) - timedelta(days=1)).day`
appearing in `silver_tables.py`, `gold_tables.py` and `load_rag_db.py`:
the day number of the last day of month `m`, or `none` when
`date(y, m + 1, 1)` raises `ValueError` (which happens exactly when
`m = 12`, since month 13 is out of range). -/
def lastDayOfMonthViaDate (y m : Nat) : Option Nat :=
  match pythonDate y (m + 1) 1 with
  | none => none
  | some _ => some (daysInMonth y m)

/-- Row of the Supabase gold table `gold_pybites_blogs` created by
`create_gold_table` in `gold_tables.py`: the silver schema with
`row_id` stringified and `content_links` encoded as a jsonb string. -/
structure GoldRow where
  row_id : String
  url : String
  domain : String
  category : String
  url_title : String
  date_published : Timestamp
  date_modified : Timestamp
  days_between_published_modified : Int
  title : String
  author : String
  tags : List String
  content_links : String
  content : List String
  content_paragraphs : Nat
  total_content_words : Nat
  year : Nat
  month : Nat
deriving DecidableEq, Repr

/-- Model of `json.dumps` applied to the `content_links` list of
`{text, link}` structs in `copy_silver_blogs_table`. -/
def jsonEncodeLinks (links : List (String × String)) : String :=
  "[" ++ String.intercalate ", "
    (links.map (fun p =>
      "\x7b\"text\": \"" ++ p.1 ++ "\", \"link\": \"" ++ p.2 ++ "\"\x7d")) ++ "]"

/-- Schema translation performed row-wise by `copy_silver_blogs_table`:
`df["row_id"].astype(str)` and `json.dumps` on `content_links`; all
other columns are copied unchanged. -/
def toGoldRow (r : SilverRow) : GoldRow :=
  { row_id := toString r.row_id
  , url := r.url, domain := r.domain, category := r.category
  , url_title := r.url_title, date_published := r.date_published
  , date_modified := r.date_modified
  , days_between_published_modified := r.days_between_published_modified
  , title := r.title, author := r.author, tags := r.tags
  , content_links := jsonEncodeLinks r.content_links
  , content := r.content
  , content_paragraphs := r.content_paragraphs
  , total_content_words := r.total_content_words
  , year := r.year, month := r.month }

/-- Window computation at the top of `copy_silver_blogs_table` (and of
`check_content_links` / `copy_content_links`): start is the first of
the caller-supplied year/month, end is the last calendar day of the
CURRENT month (from `datetime.now()`), 23:59:59; `none` models the
`ValueError` raised by `date(year, 13, 1)` when the current month is
December. -/
def goldWindow (nowY nowM year month : Nat) : Option (Timestamp × Timestamp) :=
  match lastDayOfMonthViaDate nowY nowM with
  | none => none
  | some days =>
      some (⟨year, month, 1, 0, 0, 0⟩, ⟨nowY, nowM, days, 23, 59, 59⟩)

/-- Model of `copy_silver_blogs_table(silver, gold, year, month)` in
`gold_tables.py`: derive the window, delete the gold rows whose
`date_modified` lies in it, fetch the silver rows with
`select * from silver_pybites_blogs` (the WHOLE table, no window
restriction), translate them with `toGoldRow` and bulk-insert them.
`none` models the `ValueError` raised during window derivation. -/
def copy_silver_blogs_table (silver : List SilverRow) (gold : List GoldRow)
    (nowY nowM year month : Nat) : Option (List GoldRow) :=
  match goldWindow nowY nowM year month with
  | none => none
  | some (s, e) =>
      let kept := gold.filter (fun r => ¬ tsBetween r.date_modified s e)
      some (kept ++ silver.map toGoldRow)

/-- Tokenizer interface: the part of `tiktoken.get_encoding(name)`
that `chunk_blogs` uses. -/
structure Encoding where
  encode : String → List Nat
  decode : List Nat → String

/-- Loop of `chunk_blogs` (`load_rag_db.py` lines 44-49): while
`start < end` (where `end` is the CHARACTER length of the merged
text, not the token count), decode `tokens[start : start + W]`,
append it when non-empty, and advance `start` by `W - O`. The guard
`0 < step` excludes the case `O ≥ W`, in which the Python loop never
terminates (the model returns no chunks there; the source has no
value at all). -/
def chunkLoop (dec : List Nat → String) (tokens : List Nat)
    (endPos W step : Nat) : Nat → Nat → List String
  | _, 0 => []
  | start, fuel + 1 =>
    if start < endPos ∧ 0 < step then
      if 0 < (dec ((tokens.drop start).take W)).length then
        dec ((tokens.drop start).take W) ::
          chunkLoop dec tokens endPos W step (start + step) fuel
      else chunkLoop dec tokens endPos W step (start + step) fuel
    else []

/-- Model of `chunk_blogs(blog, chunk_size, overlap_size)` in
`load_rag_db.py`: join the paragraphs with a single space, encode,
and emit overlapping token windows via `chunkLoop`. The fuel
`merged.length + 1` always suffices: `start` grows by at least one
per iteration (given the `0 < step` guard), so the loop runs at most
`merged.length` times. -/
def chunk_blogs (enc : Encoding) (blog : List String)
    (chunk_size overlap_size : Nat) : List String :=
  let merged := String.intercalate " " blog
  let tokens := enc.encode merged
  chunkLoop enc.decode tokens merged.length chunk_size (chunk_size - overlap_size) 0
    (merged.length + 1)

/-- Concrete character-level tokenizer used as a witness encoding:
every character is one token and decoding inverts encoding. -/
def charEncoding : Encoding :=
  { encode := fun s => s.toList.map Char.toNat
  , decode := fun l => String.mk (l.map Char.ofNat) }

/-- Input row of `run_pipeline_memory_efficient` together with the
outcome of its external calls: `content` is `blog[12]` (the Python
falsy check `not blog[12]` holds exactly when the list is empty),
`embedRaises` records whether one of the row's embedding calls
raises, and `ingestOk` is the boolean returned by
`ingest_documents_batch_to_milvus` (which catches its own errors). -/
structure RagBlog where
  rowId : Nat
  title : String
  content : List String
  embedRaises : Bool
  ingestOk : Bool
deriving Repr

/-- Per-row outcome bucket of `run_pipeline_memory_efficient`. -/
inductive BlogOutcome where
  | processed
  | failed
  | skipped
deriving DecidableEq, Repr

/-- Model of the nested coroutine `process_and_insert_blog` in
`run_pipeline_memory_efficient` (`load_rag_db.py` lines 133-180):
empty content and whitespace-only content are skipped; an exception
while chunking/embedding is caught and counted as failed; an empty
chunk list is skipped; otherwise the Milvus upsert result decides
between processed and failed. -/
def process_and_insert_blog (enc : Encoding) (b : RagBlog) : BlogOutcome :=
  if b.content.isEmpty then .skipped
  else if (String.intercalate " " b.content).trim = "" then .skipped
  else
    let chunks := chunk_blogs enc b.content 400 50
    if chunks.isEmpty then .skipped
    else if b.embedRaises then .failed
    else if b.ingestOk then .processed else .failed

/-- Counter state of `run_pipeline_memory_efficient`:
`(blogs_processed, blogs_failed, blogs_skipped)`. -/
def bumpCounters (enc : Encoding) (st : Nat × Nat × Nat) (b : RagBlog) :
    Nat × Nat × Nat :=
  match process_and_insert_blog enc b with
  | .processed => (st.1 + 1, st.2.1, st.2.2)
  | .failed => (st.1, st.2.1 + 1, st.2.2)
  | .skipped => (st.1, st.2.1, st.2.2 + 1)

/-- Model of the counter accounting of `run_pipeline_memory_efficient`
(`load_rag_db.py` lines 126-218): every fetched row passes through
`process_and_insert_blog` exactly once and bumps exactly one of the
three counters; the final summary compares their sum with the number
of fetched rows and logs a warning on any discrepancy. -/
def run_pipeline_memory_efficient (enc : Encoding) (blogs : List RagBlog) :
    Nat × Nat × Nat :=
  blogs.foldl (bumpCounters enc) (0, 0, 0)

/-- Outcome of the HTTP probe issued by `check_broken_links`:
the request either succeeds (2xx after redirects), raises
`httpx.TimeoutException`, or raises any other exception (connection
errors and the `raise_for_status` of a 4xx/5xx response alike). -/
inductive ProbeOutcome where
  | ok
  | timeoutExn
  | otherExn
deriving DecidableEq, Repr

/-- Model of `check_broken_links(url, link, timeout)` in
`gold_tables.py` (lines 240-259): the probe world is the `probe`
oracle; a timeout exception is caught and returned as the string
`"timeout {timeout} sec"`, any other exception is caught and mapped
to `internal_broken` or `external_broken` depending on whether the
optional `link` argument was passed, and a successful probe yields
`internal_working` or `external_working` likewise. The function is
total: no exception escapes it. -/
def check_broken_links (probe : String → ProbeOutcome) (url : String)
    (link : Option String) (timeLimit : Nat := 30) : String :=
  match probe url with
  | .timeoutExn => "timeout " ++ toString timeLimit ++ " sec"
  | .otherExn => if link.isSome then "internal_broken" else "external_broken"
  | .ok => if link.isSome then "internal_working" else "external_working"

/-- Python substring test `pat in s`: some tail of `s` starts with
`pat` (computed on the character lists). -/
def strContains (s pat : String) : Bool :=
  s.toList.tails.any (fun t => pat.toList.isPrefixOf t)

/-- Test that the character list of `s` starts with the characters
of `scheme` (Python `str.startswith` on the model level). -/
def strStartsWith (s scheme : String) : Bool :=
  scheme.toList.isPrefixOf s.toList

/-- Model of `re.match(r'(^https?:\/\/[^)]+)', link)`: succeeds when
`link` starts with `http://` or `https://` followed by at least one
character other than `)`; group 1 is the scheme plus the maximal run
of non-`)` characters. -/
def httpRegexMatch (link : String) : Option String :=
  let tryScheme := fun (scheme : String) =>
    if strStartsWith link scheme then
      let rest := (link.toList.drop scheme.toList.length).takeWhile (fun c => c ≠ ')')
      if rest.isEmpty then none
      else some (scheme ++ String.mk rest)
    else none
  match tryScheme "https://" with
  | some g => some g
  | none => tryScheme "http://"

/-- Model of `re.match(r'(mailto:[^)]+)', link)`: succeeds when
`link` starts with `mailto:` followed by at least one character
other than `)`. -/
def mailtoRegexMatch (link : String) : Bool :=
  strStartsWith link "mailto:" &&
    ¬ ((link.toList.drop 7).takeWhile (fun c => c ≠ ')')).isEmpty

/-- Model of the nested coroutine `gather_links` in
`check_content_links` (`gold_tables.py` lines 290-320), returning the
computed `link_status` (`none` models the Python `None` that the
status variable keeps when no branch assigns it). `urljoin` stands
for `urllib.parse.urljoin` and `probe` for the HTTP world; `exc`
records whether the body raises (the `except` clause then yields
`parse_error` instead of aborting the batch). -/
def gather_links (probe : String → ProbeOutcome)
    (urljoin : String → String → String) (url link : String)
    (exc : Bool := false) : Option String :=
  if exc then some "parse_error"
  else if strContains link "http" then
    match httpRegexMatch link with
    | some g => some (check_broken_links probe g none)
    | none => some (check_broken_links probe (urljoin url link) (some link))
  else if strContains link "mail" then
    if mailtoRegexMatch link then some "mail_link" else none
  else
    if ¬ strStartsWith link "#" then
      some (check_broken_links probe (urljoin url link) (some link))
    else some "internal_working"

/-- Result of the argument validation and window derivation shared
verbatim by `run_silver_pipeline` (`silver_tables.py` lines 232-264)
and `run_pipeline` (`load_rag_db.py` lines 262-294): a validation
failure logs and returns early, `date(end_year, end_month + 1, 1)`
may raise `ValueError`, and otherwise the backfill window is derived
and the pipeline proceeds to its delete and insert steps. -/
inductive PipelineRun where
  | invalidArgs
  | valueError
  | ran (start_date end_date : Timestamp)
deriving DecidableEq, Repr

/-- Model of the argument checks and window derivation of
`run_silver_pipeline`: the month-range check accepts any month in
[1, 12]; the end month must not lie in the future of the current
month; afterwards the end-of-window day is computed as
`(date(end_year, end_month + 1, 1) - timedelta(days=1)).day`, which
raises `ValueError` when `end_month = 12`. Only when all of this
succeeds does the pipeline reach `backfill_silver_table`. -/
def run_silver_pipeline (nowY nowM : Nat)
    (startYear startMonth endYear endMonth : Nat) : PipelineRun :=
  if startYear < 2021 then .invalidArgs
  else if ¬ (0 < startMonth ∧ startMonth < 13 ∧ 0 < endMonth ∧ endMonth < 13) then .invalidArgs
  else if endYear > nowY then .invalidArgs
  else if startYear > endYear then .invalidArgs
  else if startYear = endYear ∧ startMonth > endMonth then .invalidArgs
  else if endMonth > nowM then .invalidArgs
  else
    match lastDayOfMonthViaDate endYear endMonth with
    | none => .valueError
    | some days =>
        .ran ⟨startYear, startMonth, 1, 0, 0, 0⟩ ⟨endYear, endMonth, days, 23, 59, 59⟩

/-- Model of the argument checks and window derivation of
`run_pipeline` in `load_rag_db.py`, which duplicate those of
`run_silver_pipeline` line for line. -/
def run_pipeline (nowY nowM : Nat)
    (startYear startMonth endYear endMonth : Nat) : PipelineRun :=
  run_silver_pipeline nowY nowM startYear startMonth endYear endMonth

/-! ## Helper lemmas -/

lemma foldl_bumpCounters_sum (enc : Encoding) (blogs : List RagBlog) :
    ∀ st : Nat × Nat × Nat,
      (blogs.foldl (bumpCounters enc) st).1 +
        (blogs.foldl (bumpCounters enc) st).2.1 +
        (blogs.foldl (bumpCounters enc) st).2.2 =
      st.1 + st.2.1 + st.2.2 + blogs.length := by
  induction blogs with
  | nil => intro st; simp
  | cons b bs ih =>
      intro st
      simp only [List.foldl_cons]
      rw [ih]
      cases h : process_and_insert_blog enc b <;>
        simp [bumpCounters, h, List.length_cons] <;> omega

lemma foldl_bumpCounters_shift (enc : Encoding) (blogs : List RagBlog) :
    ∀ st : Nat × Nat × Nat,
      blogs.foldl (bumpCounters enc) st =
        (st.1 + (blogs.foldl (bumpCounters enc) (0, 0, 0)).1,
         st.2.1 + (blogs.foldl (bumpCounters enc) (0, 0, 0)).2.1,
         st.2.2 + (blogs.foldl (bumpCounters enc) (0, 0, 0)).2.2) := by
  induction blogs with
  | nil => intro st; simp
  | cons b bs ih =>
      intro st
      simp only [List.foldl_cons]
      rw [ih (bumpCounters enc st b), ih (bumpCounters enc (0, 0, 0) b)]
      cases h : process_and_insert_blog enc b <;>
        simp [bumpCounters, h, Prod.ext_iff] <;> omega

/-! ## Claim theorems -/

/-- C6 (confirmed). Skip accounting invariant of
`run_pipeline_memory_efficient`: for every input batch — any mix of
empty-content, whitespace-only, valid and failing rows — the final
counters satisfy `blogs_processed + blogs_failed + blogs_skipped =`
number of fetched rows; and the counters over a concatenation are
the componentwise sums of the counters over the parts, so one row's
embedding/upsert failure never aborts the processing of subsequent
rows. (The summary code logs a warning exactly when the sum differs
from the total, which by the first conjunct never happens.) -/
theorem rag_skip_accounting (enc : Encoding) (blogs extra : List RagBlog) :
    ((run_pipeline_memory_efficient enc blogs).1 +
      (run_pipeline_memory_efficient enc blogs).2.1 +
      (run_pipeline_memory_efficient enc blogs).2.2 = blogs.length) ∧
    (run_pipeline_memory_efficient enc (blogs ++ extra) =
      ((run_pipeline_memory_efficient enc blogs).1 +
        (run_pipeline_memory_efficient enc extra).1,
       (run_pipeline_memory_efficient enc blogs).2.1 +
        (run_pipeline_memory_efficient enc extra).2.1,
       (run_pipeline_memory_efficient enc blogs).2.2 +
        (run_pipeline_memory_efficient enc extra).2.2)) := by
  constructor
  · have h := foldl_bumpCounters_sum enc blogs (0, 0, 0)
    simpa [run_pipeline_memory_efficient] using h
  · unfold run_pipeline_memory_efficient
    rw [List.foldl_append]
    rw [foldl_bumpCounters_shift enc extra (blogs.foldl (bumpCounters enc) (0, 0, 0))]

/-- C8 (confirmed). Timeout is a value, not an exception: whenever
the HTTP probe raises a timeout exception, `check_broken_links`
returns the string `"timeout {N} sec"` for the configured timeout
`N`; any other probe failure is likewise mapped to a broken-link
string; and the function is total — its result is always one of the
five result strings, so no exception ever propagates to the caller. -/
theorem check_broken_links_timeout_value (probe : String → ProbeOutcome)
    (url : String) (link : Option String) (n : Nat) :
    (probe url = ProbeOutcome.timeoutExn →
      check_broken_links probe url link n = "timeout " ++ toString n ++ " sec") ∧
    (probe url = ProbeOutcome.otherExn →
      check_broken_links probe url link n = "internal_broken" ∨
      check_broken_links probe url link n = "external_broken") ∧
    (check_broken_links probe url link n = "timeout " ++ toString n ++ " sec" ∨
     check_broken_links probe url link n = "internal_broken" ∨
     check_broken_links probe url link n = "external_broken" ∨
     check_broken_links probe url link n = "internal_working" ∨
     check_broken_links probe url link n = "external_working") := by
  unfold check_broken_links
  cases h : probe url <;> cases link <;> simp

/-- Witness for C8: a probe that times out on the default timeout of
30 seconds yields exactly the string `"timeout 30 sec"`, and an
internal probe (optional `link` argument passed) that fails yields a
broken-link string. -/
theorem check_broken_links_timeout_value_witness :
    check_broken_links (fun _ => ProbeOutcome.timeoutExn) "https://pybit.es/a" none
      = "timeout 30 sec" ∧
    (check_broken_links (fun _ => ProbeOutcome.otherExn) "https://pybit.es/a" (some "x")
        = "internal_broken" ∨
     check_broken_links (fun _ => ProbeOutcome.otherExn) "https://pybit.es/a" (some "x")
        = "external_broken") := by
  refine ⟨?_, ?_⟩
  · have h := (check_broken_links_timeout_value
      (fun _ => ProbeOutcome.timeoutExn) "https://pybit.es/a" none 30).1 rfl
    simpa using h
  · exact (check_broken_links_timeout_value
      (fun _ => ProbeOutcome.otherExn) "https://pybit.es/a" (some "x") 30).2.1 rfl

/-- C10 (confirmed). December edge case: whenever the derived window
ends in month 12 — an explicit `--end-month 12` in the silver and RAG
pipelines, or any gold copy executed while the current calendar month
is December — the end-of-window day computation evaluates
`date(year, 12 + 1, 1)`, which raises `ValueError` before any delete
or insert is issued: the silver and RAG pipelines never reach their
backfill calls (first two conjuncts), a December end month that
passes every CLI validation ends in `ValueError` (third conjunct),
and the gold copy performs no delete or insert at all (fourth
conjunct). -/
theorem december_window_raises :
    (∀ nowY nowM startYear startMonth endYear s e,
        run_silver_pipeline nowY nowM startYear startMonth endYear 12 ≠
          PipelineRun.ran s e) ∧
    (∀ nowY nowM startYear startMonth endYear s e,
        run_pipeline nowY nowM startYear startMonth endYear 12 ≠
          PipelineRun.ran s e) ∧
    (∀ nowY nowM startYear startMonth endYear,
        2021 ≤ startYear → 0 < startMonth → startMonth < 13 →
        endYear ≤ nowY → startYear ≤ endYear → 12 ≤ nowM →
        run_silver_pipeline nowY nowM startYear startMonth endYear 12 =
          PipelineRun.valueError) ∧
    (∀ (silver : List SilverRow) (gold : List GoldRow) (nowY year month : Nat),
        copy_silver_blogs_table silver gold nowY 12 year month = none) := by
  have hlast : ∀ y : Nat, lastDayOfMonthViaDate y 12 = none := by
    intro y
    simp [lastDayOfMonthViaDate, pythonDate]
  have hsilver : ∀ nowY nowM startYear startMonth endYear s e,
      run_silver_pipeline nowY nowM startYear startMonth endYear 12 ≠
        PipelineRun.ran s e := by
    intro nowY nowM startYear startMonth endYear s e
    unfold run_silver_pipeline
    rw [hlast]
    split_ifs <;> simp
  refine ⟨hsilver, ?_, ?_, ?_⟩
  · intro nowY nowM startYear startMonth endYear s e
    unfold run_pipeline
    exact hsilver nowY nowM startYear startMonth endYear s e
  · intro nowY nowM startYear startMonth endYear h1 h2 h3 h4 h5 h6
    unfold run_silver_pipeline
    rw [hlast]
    split_ifs <;> first | rfl | omega
  · intro silver gold nowY year month
    simp [copy_silver_blogs_table, goldWindow, hlast]

/-- Witness for C10: with the current date in December 2025, a silver
run for the window 2021-01 .. 2025-12 passes every validation and
ends in `ValueError`, and a gold copy issues neither delete nor
insert. -/
theorem december_window_raises_witness :
    run_silver_pipeline 2025 12 2021 1 2025 12 = PipelineRun.valueError ∧
    copy_silver_blogs_table [] [] 2025 12 2021 1 = none := by
  constructor
  · exact december_window_raises.2.2.1 2025 12 2021 1 2025
      (by decide) (by decide) (by decide) (by decide) (by decide) (by decide)
  · exact december_window_raises.2.2.2 [] [] 2025 2021 1


lemma chunkLoop_mem_pos (dec : List Nat → String) (tokens : List Nat)
    (endPos W step : Nat) :
    ∀ fuel start c, c ∈ chunkLoop dec tokens endPos W step start fuel →
      0 < c.length := by
  intro fuel
  induction fuel with
  | zero => intro start c hc; simp [chunkLoop] at hc
  | succ fuel ih =>
      intro start c hc
      rw [chunkLoop] at hc
      split at hc
      · split at hc
        · rcases List.mem_cons.mp hc with h | h
          · subst h; assumption
          · exact ih _ c h
        · exact ih _ c hc
      · simp at hc

lemma chunkLoop_length_eq (dec : List Nat → String) (tokens : List Nat)
    (endPos W step : Nat)
    (hdec : ∀ l : List Nat, l ≠ [] → dec l ≠ "")
    (hdec0 : dec [] = "")
    (hW : 0 < W) (hstep : 0 < step) (hNE : tokens.length ≤ endPos) :
    ∀ fuel start, endPos - start < fuel →
      (chunkLoop dec tokens endPos W step start fuel).length =
        if start < tokens.length then
          (tokens.length - start + step - 1) / step
        else 0 := by
  intro fuel
  induction fuel with
  | zero => intro start h; omega
  | succ fuel ih =>
      intro start hfuel
      rw [chunkLoop]
      by_cases hse : start < endPos
      · rw [if_pos ⟨hse, hstep⟩]
        by_cases hsN : start < tokens.length
        · have hd : tokens.drop start ≠ [] := by
            have h1 : (tokens.drop start).length = tokens.length - start :=
              List.length_drop _ _
            intro hnil
            rw [hnil] at h1
            simp at h1
            omega
          have hslice : (tokens.drop start).take W ≠ [] := by
            intro ht
            rcases List.take_eq_nil_iff.mp ht with h | h
            · omega
            · exact hd h
          have hne : dec ((tokens.drop start).take W) ≠ "" := hdec _ hslice
          have hpos : 0 < (dec ((tokens.drop start).take W)).length := by
            by_contra hle
            push_neg at hle
            apply hne
            have hlen0 : (dec ((tokens.drop start).take W)).data.length = 0 := by
              have h0 : (dec ((tokens.drop start).take W)).length = 0 := by omega
              exact h0
            exact String.ext (List.eq_nil_of_length_eq_zero hlen0)
          rw [if_pos hpos]
          simp only [List.length_cons]
          rw [ih (start + step) (by omega)]
          rw [if_pos hsN]
          have e1 : tokens.length - start + step - 1 =
              (tokens.length - start - 1) + step := by omega
          rw [e1, Nat.add_div_right _ hstep]
          by_cases h2 : start + step < tokens.length
          · rw [if_pos h2]
            have e2 : tokens.length - (start + step) + step - 1 =
                tokens.length - start - 1 := by omega
            rw [e2]
          · rw [if_neg h2]
            have hlt : tokens.length - start - 1 < step := by omega
            rw [Nat.div_eq_of_lt hlt]
        · have hdrop : tokens.drop start = [] := by
            apply List.drop_eq_nil_of_le
            omega
          rw [hdrop]
          simp only [List.take_nil, hdec0]
          rw [if_neg (by simp)]
          rw [ih (start + step) (by omega)]
          rw [if_neg (by omega), if_neg (by omega)]
      · rw [if_neg (fun h => hse h.1)]
        simp only [List.length_nil]
        rw [if_neg (by omega)]

lemma charEncoding_decode_nonempty (l : List Nat) (h : l ≠ []) :
    charEncoding.decode l ≠ "" := by
  simp only [charEncoding]
  intro hc
  apply h
  have hdata := congrArg String.data hc
  simp only [String.data] at hdata
  exact List.map_eq_nil_iff.mp hdata

lemma charEncoding_encode_length (s : String) :
    (charEncoding.encode s).length = s.length := by
  show (s.toList.map Char.toNat).length = s.length
  rw [List.length_map]
  rfl

set_option maxRecDepth 4096 in
/-- C5 counterexample. The claim "`chunk_blogs` returns exactly one
chunk when `N ≤ W`" is false on the code: a blog whose joined text
encodes to `N = 4` tokens, chunked with `W = 4` and `O = 1`, yields
TWO chunks — the loop bound is the character length of the joined
text (not the token count), so a second window starting at token 3
is emitted. This also refutes the claimed count
`ceil((N - O) / (W - O))` for `N > W` (for example 11 tokens with
`W = 4`, `O = 1` give 4 chunks, not `ceil(10 / 3) = 4`...
`ceil((11 - 1) / 3) = 4`, but 7 tokens with `W = 4`, `O = 1` give 3
chunks, not `ceil(6 / 3) = 2`). -/
theorem chunk_blogs_count_counterexample :
    (charEncoding.encode (String.intercalate " " ["abcd"])).length = 4 ∧
    (chunk_blogs charEncoding ["abcd"] 4 1).length = 2 ∧
    (charEncoding.encode (String.intercalate " " ["abcdefg"])).length = 7 ∧
    (chunk_blogs charEncoding ["abcdefg"] 4 1).length = 3 := by
  refine ⟨by decide, by decide, by decide, by decide⟩

/-- C5 (corrected). Amended chunk count and termination: for a blog
whose joined text encodes to `N > 0` tokens, with chunk size `W`,
overlap `O < W`, a decoder that is non-empty on non-empty token
lists and empty on the empty list, and a tokenizer producing at most
one token per character (true of BPE tokenizers on ASCII text and of
the character tokenizer), `chunk_blogs` returns exactly
`ceil(N / (W - O))` non-empty chunks; the loop terminates once the
start position reaches the CHARACTER length of the joined text
(later windows decode to the empty string and are skipped), and no
returned chunk is ever zero-length. -/
theorem chunk_blogs_count (enc : Encoding) (blog : List String) (W O : Nat)
    (hO : O < W)
    (hdec : ∀ l : List Nat, l ≠ [] → enc.decode l ≠ "")
    (hdec0 : enc.decode [] = "")
    (hN : 0 < (enc.encode (String.intercalate " " blog)).length)
    (hlen : (enc.encode (String.intercalate " " blog)).length ≤
      (String.intercalate " " blog).length) :
    (chunk_blogs enc blog W O).length =
      ((enc.encode (String.intercalate " " blog)).length + (W - O) - 1) / (W - O) ∧
    ∀ c ∈ chunk_blogs enc blog W O, c ≠ "" := by
  constructor
  · unfold chunk_blogs
    rw [chunkLoop_length_eq enc.decode _ _ _ _ hdec hdec0 (by omega) (by omega)
      hlen _ 0 (by omega)]
    rw [if_pos hN]
    simp
  · intro c hc
    have hpos := chunkLoop_mem_pos enc.decode
      (enc.encode (String.intercalate " " blog))
      (String.intercalate " " blog).length W (W - O)
      ((String.intercalate " " blog).length + 1) 0 c hc
    intro hcon
    rw [hcon] at hpos
    simp at hpos

set_option maxRecDepth 4096 in
/-- Witness for C5 (amended): the blog `["hello world"]` has 11
character tokens; with `W = 4`, `O = 1` the code produces
`ceil(11 / 3) = 4` chunks, all non-empty. -/
theorem chunk_blogs_count_witness :
    (chunk_blogs charEncoding ["hello world"] 4 1).length =
      ((charEncoding.encode (String.intercalate " " ["hello world"])).length
        + (4 - 1) - 1) / (4 - 1) ∧
    (chunk_blogs charEncoding ["hello world"] 4 1).length = 4 ∧
    ∀ c ∈ chunk_blogs charEncoding ["hello world"] 4 1, c ≠ "" := by
  have h := chunk_blogs_count charEncoding ["hello world"] 4 1 (by decide)
    charEncoding_decode_nonempty rfl (by decide)
    (by rw [charEncoding_encode_length])
  exact ⟨h.1, by decide, h.2⟩

/-- C7 counterexample. The claim "every other non-fragment,
non-mailto string is resolved against the owning article's url and
probed as an internal link" is false on the code: the link `"gmail"`
(no `http` scheme, not a fragment, not a `mailto:` link) falls into
the `elif 'mail' in link` branch because it CONTAINS the substring
`"mail"`, the `mailto:` regex fails, no branch assigns a status, and
`gather_links` returns the unassigned `None` — it neither probes the
resolved url (which under an all-ok probe would yield
`internal_working`) nor returns any classification. -/
theorem link_classification_counterexample :
    gather_links (fun _ => ProbeOutcome.ok) (fun _ l => l)
      "https://pybit.es/articles/x" "gmail" = none ∧
    gather_links (fun _ => ProbeOutcome.ok) (fun _ l => l)
        "https://pybit.es/articles/x" "gmail" ≠
      some (check_broken_links (fun _ => ProbeOutcome.ok)
        ((fun _ l => l) "https://pybit.es/articles/x" "gmail") (some "gmail")) := by
  exact ⟨by decide, by decide⟩

/-- C7 (corrected). Amended link classification: `gather_links`
totally classifies each `(url, link)` pair by substring tests in
this order — a link containing `"http"` is probed as external when
it matches `^https?://[^)]+` and otherwise resolved against the
article url and probed as internal; a link containing `"mail"` (but
not `"http"`) is classified `mail_link` without a network call when
it starts with `mailto:`, and is left UNCLASSIFIED (`None`) when it
does not; a remaining fragment link (starting `"#"`) is
`internal_working` without a network call; every remaining link is
resolved against the article url and probed as internal; and an
exception inside the handler yields `parse_error` instead of
aborting the batch. The no-probe branches hold for every probe
oracle, which is the no-network-call guarantee. -/
theorem link_classification (probe : String → ProbeOutcome)
    (urljoin : String → String → String) (url link : String) :
    (strContains link "http" = false → strContains link "mail" = false →
      strStartsWith link "#" = true →
      gather_links probe urljoin url link = some "internal_working") ∧
    (strContains link "http" = false → strContains link "mail" = true →
      mailtoRegexMatch link = true →
      gather_links probe urljoin url link = some "mail_link") ∧
    (strContains link "http" = false → strContains link "mail" = true →
      mailtoRegexMatch link = false →
      gather_links probe urljoin url link = none) ∧
    (∀ g, strContains link "http" = true → httpRegexMatch link = some g →
      gather_links probe urljoin url link =
        some (check_broken_links probe g none)) ∧
    (strContains link "http" = true → httpRegexMatch link = none →
      gather_links probe urljoin url link =
        some (check_broken_links probe (urljoin url link) (some link))) ∧
    (strContains link "http" = false → strContains link "mail" = false →
      strStartsWith link "#" = false →
      gather_links probe urljoin url link =
        some (check_broken_links probe (urljoin url link) (some link))) ∧
    (gather_links probe urljoin url link true = some "parse_error") := by
  refine ⟨?_, ?_, ?_, ?_, ?_, ?_, ?_⟩
  · intro h1 h2 h3
    simp [gather_links, h1, h2, h3]
  · intro h1 h2 h3
    simp [gather_links, h1, h2, h3]
  · intro h1 h2 h3
    simp [gather_links, h1, h2, h3]
  · intro g h1 h2
    simp [gather_links, h1, h2]
  · intro h1 h2
    simp [gather_links, h1, h2]
  · intro h1 h2 h3
    simp [gather_links, h1, h2, h3]
  · simp [gather_links]

/-- Witness for C7 (amended): a fragment link and a `mailto:` link
are classified without any probe (the oracle here times out on every
request, so a probe would be visible); the gap case `"gmail"` gets no
classification; and a well-formed `https://` link is probed as
external. -/
theorem link_classification_witness :
    gather_links (fun _ => ProbeOutcome.timeoutExn) (fun _ l => l)
      "https://pybit.es/a" "#frag" = some "internal_working" ∧
    gather_links (fun _ => ProbeOutcome.timeoutExn) (fun _ l => l)
      "https://pybit.es/a" "mailto:a@b.com" = some "mail_link" ∧
    gather_links (fun _ => ProbeOutcome.timeoutExn) (fun _ l => l)
      "https://pybit.es/a" "gmail" = none ∧
    gather_links (fun _ => ProbeOutcome.ok) (fun _ l => l)
      "https://pybit.es/a" "https://x.com" =
      some (check_broken_links (fun _ => ProbeOutcome.ok) "https://x.com" none) := by
  refine ⟨?_, ?_, ?_, ?_⟩
  · exact (link_classification (fun _ => ProbeOutcome.timeoutExn) (fun _ l => l)
      "https://pybit.es/a" "#frag").1 (by decide) (by decide) (by decide)
  · exact (link_classification (fun _ => ProbeOutcome.timeoutExn) (fun _ l => l)
      "https://pybit.es/a" "mailto:a@b.com").2.1 (by decide) (by decide) (by decide)
  · exact (link_classification (fun _ => ProbeOutcome.timeoutExn) (fun _ l => l)
      "https://pybit.es/a" "gmail").2.2.1 (by decide) (by decide) (by decide)
  · exact (link_classification (fun _ => ProbeOutcome.ok) (fun _ l => l)
      "https://pybit.es/a" "https://x.com").2.2.2.1 "https://x.com"
      (by decide) (by decide)

lemma mem_antiJoinRows {ρ κ χ : Type} [DecidableEq κ] [DecidableEq χ]
    (key : ρ → κ) (chg : ρ → χ) (main batch : List ρ) (x : ρ)
    (hx : x ∈ antiJoinRows key chg main batch) : x ∈ batch := by
  unfold antiJoinRows at hx
  rcases List.mem_flatMap.mp hx with ⟨t, ht, hmem⟩
  by_cases hms : (main.filter (fun r => key r = key t)).isEmpty
  · simp only [hms, if_true] at hmem
    rcases List.mem_singleton.mp hmem with rfl
    exact ht
  · simp only [hms, if_false, Bool.false_eq_true] at hmem
    rcases List.mem_filterMap.mp hmem with ⟨r, _, hg⟩
    split at hg
    · rcases Option.some.inj hg with rfl
      exact ht
    · exact absurd hg (by simp)

lemma antiJoinRows_second_run {ρ κ χ : Type} [DecidableEq κ] [DecidableEq χ]
    (key : ρ → κ) (chg : ρ → χ) (main batch : List ρ)
    (agree : ∀ t ∈ batch, ∀ r, (r ∈ main ∨ r ∈ batch) → key r = key t →
      chg r = chg t) :
    antiJoinRows key chg (main ++ antiJoinRows key chg main batch) batch = [] := by
  conv_lhs => rw [antiJoinRows]
  apply List.flatMap_eq_nil_iff.mpr
  intro t ht
  have hkey : ∃ r ∈ main ++ antiJoinRows key chg main batch, key r = key t := by
    by_cases h : ∃ r ∈ main, key r = key t
    · rcases h with ⟨r, hr, hk⟩
      exact ⟨r, List.mem_append_left _ hr, hk⟩
    · have hms : main.filter (fun r => key r = key t) = [] := by
        apply List.filter_eq_nil_iff.mpr
        intro r hr
        simp only [decide_eq_true_eq]
        exact fun hk => h ⟨r, hr, hk⟩
      have htI : t ∈ antiJoinRows key chg main batch := by
        unfold antiJoinRows
        apply List.mem_flatMap.mpr
        refine ⟨t, ht, ?_⟩
        simp [hms]
      exact ⟨t, List.mem_append_right _ htI, rfl⟩
  obtain ⟨r0, hr0, hk0⟩ := hkey
  have hmsne :
      ¬ ((main ++ antiJoinRows key chg main batch).filter
          (fun r => key r = key t)).isEmpty = true := by
    rw [List.isEmpty_iff]
    intro hnil
    have hr0f : r0 ∈ (main ++ antiJoinRows key chg main batch).filter
        (fun r => key r = key t) :=
      List.mem_filter.mpr ⟨hr0, by simp [hk0]⟩
    rw [hnil] at hr0f
    simp at hr0f
  simp only [hmsne, if_false, Bool.false_eq_true]
  apply List.filterMap_eq_nil_iff.mpr
  intro r hr
  have hrm := List.mem_filter.mp hr
  have hrk : key r = key t := by
    have := hrm.2
    simpa using this
  have hrc : chg r = chg t := by
    apply agree t ht r _ hrk
    rcases List.mem_append.mp hrm.1 with h | h
    · exact Or.inl h
    · exact Or.inr (mem_antiJoinRows key chg main batch r h)
  simp [hrc]

/-- C1 counterexample. The claim "for every non-empty batch B,
running `upsert_urls(table, B)` twice leaves the table in the state
of running it once, the second run inserting zero rows" is false on
the code: with a table holding `("u", 2021-01-01)` and the batch
`[("u", 2021-02-02)]`, the first run inserts the changed row but
never removes the old one, so on the second run the anti-join
condition `t.last_modified <> main.last_modified` still holds
against the old row — the second run inserts the batch row again and
the table keeps growing. -/
theorem staging_upsert_counterexample :
    upsert_urls (upsert_urls [⟨"u", ⟨2021, 1, 1, 0, 0, 0⟩⟩]
        [⟨"u", ⟨2021, 2, 2, 0, 0, 0⟩⟩]) [⟨"u", ⟨2021, 2, 2, 0, 0, 0⟩⟩] ≠
      upsert_urls [⟨"u", ⟨2021, 1, 1, 0, 0, 0⟩⟩] [⟨"u", ⟨2021, 2, 2, 0, 0, 0⟩⟩] ∧
    antiJoinRows UrlRow.url UrlRow.last_modified
        (upsert_urls [⟨"u", ⟨2021, 1, 1, 0, 0, 0⟩⟩] [⟨"u", ⟨2021, 2, 2, 0, 0, 0⟩⟩])
        [⟨"u", ⟨2021, 2, 2, 0, 0, 0⟩⟩] ≠ [] := by
  exact ⟨by decide, by decide⟩

/-- C1 (corrected). Amended idempotence of the staging upsert: the
double run coincides with the single run PROVIDED no batch row
carries a url that occurs anywhere in the target or in the batch
with a DIFFERENT change-column value (when it does, the stale row is
never overwritten and the second run re-inserts the batch row, as
the counterexample shows). Under that proviso the second run's
anti-join selects nothing, both for `upsert_urls` (keyed by url,
change column `last_modified`) and for the bronze merge of
`create_bronze_table` (keyed by url, change column `date_modified`). -/
theorem staging_upsert_idempotent :
    (∀ (main batch : List UrlRow),
      (∀ t ∈ batch, ∀ r : UrlRow, (r ∈ main ∨ r ∈ batch) → r.url = t.url →
        r.last_modified = t.last_modified) →
      upsert_urls (upsert_urls main batch) batch = upsert_urls main batch ∧
      antiJoinRows UrlRow.url UrlRow.last_modified
        (upsert_urls main batch) batch = []) ∧
    (∀ (main batch : List BronzeRow),
      (∀ t ∈ batch, ∀ r : BronzeRow, (r ∈ main ∨ r ∈ batch) → r.url = t.url →
        r.date_modified = t.date_modified) →
      create_bronze_table (create_bronze_table main batch) batch =
        create_bronze_table main batch) := by
  constructor
  · intro main batch agree
    by_cases hb : batch.isEmpty
    · have hbnil : batch = [] := List.isEmpty_iff.mp hb
      subst hbnil
      constructor
      · simp [upsert_urls]
      · simp [antiJoinRows]
    · have h2 := antiJoinRows_second_run UrlRow.url UrlRow.last_modified
        main batch agree
      have hup : upsert_urls main batch =
          main ++ antiJoinRows UrlRow.url UrlRow.last_modified main batch := by
        simp [upsert_urls, hb]
      constructor
      · rw [hup]
        simp [upsert_urls, hb, h2, hup]
      · rw [hup]
        exact h2
  · intro main batch agree
    have h2 := antiJoinRows_second_run BronzeRow.url BronzeRow.date_modified
      main batch agree
    unfold create_bronze_table
    rw [h2]
    simp

/-- Witness for C1 (amended): a batch with a single fresh url is
inserted once by the first run and the second run changes nothing,
for both the sitemap upsert and the bronze merge. -/
theorem staging_upsert_idempotent_witness :
    upsert_urls (upsert_urls [] [⟨"u", ⟨2021, 1, 1, 0, 0, 0⟩⟩])
        [⟨"u", ⟨2021, 1, 1, 0, 0, 0⟩⟩] =
      upsert_urls [] [⟨"u", ⟨2021, 1, 1, 0, 0, 0⟩⟩] ∧
    create_bronze_table (create_bronze_table []
        [⟨"u", "t", ⟨2021, 1, 1, 0, 0, 0⟩, ⟨2021, 1, 5, 0, 0, 0⟩, "a", [], [], []⟩])
        [⟨"u", "t", ⟨2021, 1, 1, 0, 0, 0⟩, ⟨2021, 1, 5, 0, 0, 0⟩, "a", [], [], []⟩] =
      create_bronze_table []
        [⟨"u", "t", ⟨2021, 1, 1, 0, 0, 0⟩, ⟨2021, 1, 5, 0, 0, 0⟩, "a", [], [], []⟩] := by
  constructor
  · exact (staging_upsert_idempotent.1 [] [⟨"u", ⟨2021, 1, 1, 0, 0, 0⟩⟩]
      (by
        intro t ht r hr hk
        simp at ht
        subst ht
        rcases hr with h | h
        · simp at h
        · simp at h
          subst h
          rfl)).1
  · exact staging_upsert_idempotent.2 []
      [⟨"u", "t", ⟨2021, 1, 1, 0, 0, 0⟩, ⟨2021, 1, 5, 0, 0, 0⟩, "a", [], [], []⟩]
      (by
        intro t ht r hr hk
        simp at ht
        subst ht
        rcases hr with h | h
        · simp at h
        · simp at h
          subst h
          rfl)

lemma antiJoinRows_agree {ρ κ χ : Type} [DecidableEq κ] [DecidableEq χ]
    (key : ρ → κ) (chg : ρ → χ) (main : List ρ) :
    ∀ batch : List ρ,
      (∀ t ∈ batch, ∀ r ∈ main, key r = key t → chg r = chg t) →
      antiJoinRows key chg main batch =
        batch.filter (fun t => (main.filter (fun r => key r = key t)).isEmpty) := by
  intro batch
  induction batch with
  | nil => intro _; rfl
  | cons t rest ih =>
      intro agree
      have hrest := ih (fun t' ht' => agree t' (List.mem_cons_of_mem _ ht'))
      unfold antiJoinRows
      unfold antiJoinRows at hrest
      simp only [List.flatMap_cons]
      rw [hrest]
      by_cases hms : (main.filter (fun r => key r = key t)).isEmpty
      · rw [if_pos hms, List.filter_cons_of_pos (by simpa using hms)]
        rfl
      · rw [if_neg hms, List.filter_cons_of_neg (by simpa using hms)]
        have hnil : (main.filter (fun r => key r = key t)).filterMap
            (fun r => if chg r ≠ chg t then some t else none) = [] := by
          apply List.filterMap_eq_nil_iff.mpr
          intro r hr
          have hrm := List.mem_filter.mp hr
          have hrk : key r = key t := by simpa using hrm.2
          have := agree t (List.mem_cons_self t rest) r hrm.1 hrk
          simp [this]
        rw [hnil]
        rfl

/-- C9 counterexample. The claim "`url` is a uniqueness key of the
sitemap URL table" is false on the code: starting from the freshly
created table, upserting `("u", 2021-01-01)` and then upserting
`("u", 2021-02-02)` (same url, different `last_modified`) leaves TWO
rows with url `"u"` — the anti-join inserts the changed row without
removing the old one, and no unique constraint exists on `url`. -/
theorem url_uniqueness_counterexample :
    ((upsert_urls (upsert_urls create_url_table [⟨"u", ⟨2021, 1, 1, 0, 0, 0⟩⟩])
        [⟨"u", ⟨2021, 2, 2, 0, 0, 0⟩⟩]).filter (fun r => r.url = "u")).length = 2 ∧
    ¬ ((upsert_urls (upsert_urls create_url_table [⟨"u", ⟨2021, 1, 1, 0, 0, 0⟩⟩])
        [⟨"u", ⟨2021, 2, 2, 0, 0, 0⟩⟩]).map UrlRow.url).Nodup := by
  exact ⟨by decide, by decide⟩

/-- C9 (corrected). Amended uniqueness: the table holds at most one
row per url only as long as no upsert batch carries a url already
present with a different `last_modified` (and each batch mentions
each url at most once); such an upsert adds a second row for the url
instead of replacing the old one, as the counterexample shows. Under
that proviso an upsert inserts only urls absent from the table, so
per-url uniqueness is preserved. -/
theorem url_uniqueness_preserved (main batch : List UrlRow)
    (hmain : (main.map UrlRow.url).Nodup)
    (hbatch : (batch.map UrlRow.url).Nodup)
    (agree : ∀ t ∈ batch, ∀ r ∈ main, r.url = t.url →
      r.last_modified = t.last_modified) :
    ((upsert_urls main batch).map UrlRow.url).Nodup := by
  by_cases hb : batch.isEmpty
  · simpa [upsert_urls, hb] using hmain
  · have hI := antiJoinRows_agree UrlRow.url UrlRow.last_modified main batch agree
    have hup : upsert_urls main batch =
        main ++ antiJoinRows UrlRow.url UrlRow.last_modified main batch := by
      simp [upsert_urls, hb]
    rw [hup, hI, List.map_append]
    apply List.nodup_append.mpr
    refine ⟨hmain, ?_, ?_⟩
    · apply hbatch.sublist
      exact (List.filter_sublist batch).map UrlRow.url
    · intro u hu hu2
      rcases List.mem_map.mp hu with ⟨r, hr, rfl⟩
      rcases List.mem_map.mp hu2 with ⟨t, htf, hteq⟩
      have htm := List.mem_filter.mp htf
      have hemp : (main.filter (fun r' => r'.url = t.url)).isEmpty := by
        simpa using htm.2
      have hrmem : r ∈ main.filter (fun r' => r'.url = t.url) :=
        List.mem_filter.mpr ⟨hr, by simp [hteq]⟩
      rw [List.isEmpty_iff] at hemp
      rw [hemp] at hrmem
      simp at hrmem

/-- Witness for C9 (amended): upserting two distinct fresh urls into
a table already holding a third url keeps the url column duplicate
free. -/
theorem url_uniqueness_preserved_witness :
    ((upsert_urls [⟨"w", ⟨2021, 3, 3, 0, 0, 0⟩⟩]
        [⟨"u", ⟨2021, 1, 1, 0, 0, 0⟩⟩, ⟨"v", ⟨2021, 2, 2, 0, 0, 0⟩⟩]).map
      UrlRow.url).Nodup := by
  apply url_uniqueness_preserved
  · decide
  · decide
  · intro t ht r hr hk
    simp at ht hr
    subst hr
    rcases ht with h | h <;> subst h <;> simp_all

lemma assignRowIds_map_strip : ∀ (ds : List SilverRowData) (n : Nat),
    (assignRowIds n ds).map SilverRow.stripId = ds := by
  intro ds
  induction ds with
  | nil => intro n; rfl
  | cons d rest ih =>
      intro n
      simp only [assignRowIds, List.map_cons, ih]
      congr 1

lemma mem_assignRowIds_strip (ds : List SilverRowData) (n : Nat) (r : SilverRow)
    (hr : r ∈ assignRowIds n ds) : r.stripId ∈ ds := by
  have := List.mem_map_of_mem SilverRow.stripId hr
  rwa [assignRowIds_map_strip] at this

lemma bestForUrl_step_mem :
    ∀ (l : List BronzeRow) (acc : Option BronzeRow) (b : BronzeRow),
      l.foldl (fun acc b =>
        match acc with
        | none => some b
        | some a =>
            if Timestamp.lt a.date_modified b.date_modified then some b
            else some a) acc = some b →
      b ∈ l ∨ acc = some b := by
  intro l
  induction l with
  | nil => intro acc b h; exact Or.inr h
  | cons x xs ih =>
      intro acc b h
      rw [List.foldl_cons] at h
      rcases ih _ b h with hmem | hacc
      · exact Or.inl (List.mem_cons_of_mem _ hmem)
      · match acc with
        | none =>
            have hx : some x = some b := hacc
            rcases Option.some.inj hx with rfl
            exact Or.inl (List.mem_cons_self _ _)
        | some a =>
            have hx : (if Timestamp.lt a.date_modified x.date_modified = true
                then some x else some a) = some b := hacc
            by_cases hlt : Timestamp.lt a.date_modified x.date_modified = true
            · rw [if_pos hlt] at hx
              rcases Option.some.inj hx with rfl
              exact Or.inl (List.mem_cons_self _ _)
            · rw [if_neg hlt] at hx
              exact Or.inr hx

lemma bestForUrl_spec (rows : List BronzeRow) (u : String) (b : BronzeRow)
    (h : bestForUrl rows u = some b) : b ∈ rows ∧ b.url = u := by
  unfold bestForUrl at h
  rcases bestForUrl_step_mem _ none b h with hmem | habs
  · have := List.mem_filter.mp hmem
    exact ⟨this.1, by simpa using this.2⟩
  · simp at habs

lemma rank1_subset (rows : List BronzeRow) (x : BronzeRow)
    (hx : x ∈ rank1 rows) : x ∈ rows := by
  unfold rank1 at hx
  rcases List.mem_filterMap.mp hx with ⟨u, _, hb⟩
  exact (bestForUrl_spec rows u x hb).1

lemma uniqUrls_foldl_mono (xs : List BronzeRow) :
    ∀ (acc : List String) (a : String), a ∈ acc →
      a ∈ xs.foldl
        (fun acc b => if acc.contains b.url then acc else acc ++ [b.url]) acc := by
  induction xs with
  | nil => intro acc a ha; simpa using ha
  | cons x rest ih =>
      intro acc a ha
      rw [List.foldl_cons]
      apply ih
      by_cases hc : acc.contains x.url
      · rwa [if_pos hc]
      · rw [if_neg hc]
        exact List.mem_append_left _ ha

lemma mem_uniqUrls_foldl (xs : List BronzeRow) :
    ∀ (acc : List String) (b : BronzeRow), b ∈ xs →
      b.url ∈ xs.foldl
        (fun acc b => if acc.contains b.url then acc else acc ++ [b.url]) acc := by
  induction xs with
  | nil => intro acc b hb; simp at hb
  | cons x rest ih =>
      intro acc b hb
      rw [List.foldl_cons]
      rcases List.mem_cons.mp hb with rfl | hb
      · apply uniqUrls_foldl_mono
        by_cases hc : acc.contains b.url
        · rw [if_pos hc]
          simpa using hc
        · rw [if_neg hc]
          exact List.mem_append_right _ (List.mem_singleton_self _)
      · exact ih _ b hb

lemma mem_uniqUrls (rows : List BronzeRow) (b : BronzeRow) (hb : b ∈ rows) :
    b.url ∈ uniqUrls rows :=
  mem_uniqUrls_foldl rows [] b hb

lemma uniqUrls_foldl_nodup (xs : List BronzeRow) :
    ∀ acc : List String, acc.Nodup →
      (xs.foldl
        (fun acc b => if acc.contains b.url then acc else acc ++ [b.url]) acc).Nodup := by
  induction xs with
  | nil => intro acc h; simpa using h
  | cons x rest ih =>
      intro acc hacc
      rw [List.foldl_cons]
      apply ih
      by_cases hc : acc.contains x.url
      · rwa [if_pos hc]
      · rw [if_neg hc]
        apply List.nodup_append.mpr
        refine ⟨hacc, List.nodup_singleton _, ?_⟩
        intro a ha ha2
        rcases List.mem_singleton.mp ha2 with rfl
        exact hc (by simpa using ha)

lemma uniqUrls_nodup (rows : List BronzeRow) : (uniqUrls rows).Nodup :=
  uniqUrls_foldl_nodup rows [] List.nodup_nil

lemma filterMap_best_filter_not_mem (w : List BronzeRow) (u : String)
    (us : List String) (hu : u ∉ us) :
    (us.filterMap (bestForUrl w)).filter (fun b => b.url = u) = [] := by
  apply List.filter_eq_nil_iff.mpr
  intro b hb
  rcases List.mem_filterMap.mp hb with ⟨u2, hu2, hbw⟩
  have hurl := (bestForUrl_spec w u2 b hbw).2
  simp only [decide_eq_true_eq]
  intro he
  rw [hurl] at he
  rw [he] at hu2
  exact hu hu2

lemma rank1_filter_url (w : List BronzeRow) (u : String) (bw : BronzeRow)
    (hbw : bestForUrl w u = some bw) (hu : u ∈ uniqUrls w) :
    (rank1 w).filter (fun b => b.url = u) = [bw] := by
  unfold rank1
  have hnodup := uniqUrls_nodup w
  revert hu hnodup
  generalize uniqUrls w = us
  induction us with
  | nil => intro hu _; simp at hu
  | cons u' rest ih =>
      intro hu hnodup
      rcases List.mem_cons.mp hu with rfl | hmem
      · rw [List.filterMap_cons, hbw]
        have hb := bestForUrl_spec w u bw hbw
        rw [List.filter_cons_of_pos (by simp [hb.2])]
        rw [filterMap_best_filter_not_mem w u rest (List.nodup_cons.mp hnodup).1]
      · have hne : u' ≠ u := by
          intro he
          subst he
          exact (List.nodup_cons.mp hnodup).1 hmem
        rw [List.filterMap_cons]
        cases hb' : bestForUrl w u' with
        | none => exact ih hmem (List.nodup_cons.mp hnodup).2
        | some b' =>
            have hurl := (bestForUrl_spec w u' b' hb').2
            rw [List.filter_cons_of_neg (by simp [hurl, hne])]
            exact ih hmem (List.nodup_cons.mp hnodup).2

lemma backfill_inserted_in_window (bronze : List BronzeRow)
    (s e : Timestamp) (n : Nat) (r : SilverRow)
    (hr : r ∈ assignRowIds n
      ((rank1 (bronze.filter (fun b => tsBetween b.date_modified s e))).map
        silverTransform)) :
    tsBetween r.date_modified s e = true := by
  have hs := mem_assignRowIds_strip _ _ _ hr
  rcases List.mem_map.mp hs with ⟨b, hb, heq⟩
  have hbw : b ∈ bronze.filter (fun b => tsBetween b.date_modified s e) :=
    rank1_subset _ _ hb
  have hbt := (List.mem_filter.mp hbw).2
  have hdm : r.date_modified = b.date_modified := by
    rw [show r.date_modified = r.stripId.date_modified from rfl, ← heq]
    rfl
  rw [hdm]
  simpa using hbt

lemma backfill_filter_out (bronze : List BronzeRow) (silver : List SilverRow)
    (s e : Timestamp) (n : Nat) :
    ((backfill_silver_table bronze silver s e n).1).filter
        (fun r => ¬ tsBetween r.date_modified s e) =
      silver.filter (fun r => ¬ tsBetween r.date_modified s e) := by
  simp only [backfill_silver_table]
  rw [List.filter_append]
  have h1 : (silver.filter (fun r => ¬ tsBetween r.date_modified s e)).filter
      (fun r => ¬ tsBetween r.date_modified s e) =
      silver.filter (fun r => ¬ tsBetween r.date_modified s e) := by
    apply List.filter_eq_self.mpr
    intro a ha
    exact (List.mem_filter.mp ha).2
  have h2 : (assignRowIds n
      ((rank1 (bronze.filter (fun b => tsBetween b.date_modified s e))).map
        silverTransform)).filter (fun r => ¬ tsBetween r.date_modified s e) = [] := by
    apply List.filter_eq_nil_iff.mpr
    intro r hr
    have := backfill_inserted_in_window bronze s e n r hr
    simp [this]
  rw [h1, h2, List.append_nil]

/-- C2 counterexample. The claim "running `backfill_silver_table`
twice consecutively without source changes produces identical silver
table content both times" is false on the code when the generated
`row_id` column is part of the content: the delete-then-recompute is
deterministic in every other column, but `row_id uuid default uuid()`
draws a fresh value at each insert, so the rows of the second run
carry different `row_id`s than those of the first. -/
theorem backfill_silver_counterexample :
    (backfill_silver_table
        [⟨"https://pybit.es/articles/x", "t", ⟨2021, 1, 1, 0, 0, 0⟩,
          ⟨2021, 1, 5, 0, 0, 0⟩, "a", [], [], ["hello world"]⟩]
        (backfill_silver_table
          [⟨"https://pybit.es/articles/x", "t", ⟨2021, 1, 1, 0, 0, 0⟩,
            ⟨2021, 1, 5, 0, 0, 0⟩, "a", [], [], ["hello world"]⟩]
          [] ⟨2021, 1, 1, 0, 0, 0⟩ ⟨2021, 1, 31, 23, 59, 59⟩ 0).1
        ⟨2021, 1, 1, 0, 0, 0⟩ ⟨2021, 1, 31, 23, 59, 59⟩
        (backfill_silver_table
          [⟨"https://pybit.es/articles/x", "t", ⟨2021, 1, 1, 0, 0, 0⟩,
            ⟨2021, 1, 5, 0, 0, 0⟩, "a", [], [], ["hello world"]⟩]
          [] ⟨2021, 1, 1, 0, 0, 0⟩ ⟨2021, 1, 31, 23, 59, 59⟩ 0).2).1 ≠
      (backfill_silver_table
        [⟨"https://pybit.es/articles/x", "t", ⟨2021, 1, 1, 0, 0, 0⟩,
          ⟨2021, 1, 5, 0, 0, 0⟩, "a", [], [], ["hello world"]⟩]
        [] ⟨2021, 1, 1, 0, 0, 0⟩ ⟨2021, 1, 31, 23, 59, 59⟩ 0).1 := by
  decide

/-- C2 (corrected). Amended window determinism: for every window and
every fixed bronze state, running `backfill_silver_table` twice
consecutively yields tables that agree in EVERY column except the
generated `row_id` — the delete step of the second run removes
exactly the rows the first run inserted (they all carry an in-window
`date_modified`), and the recomputed insert is identical apart from
the fresh uuid draws. -/
theorem backfill_silver_deterministic (bronze : List BronzeRow)
    (silver : List SilverRow) (s e : Timestamp) (nextId : Nat) :
    ((backfill_silver_table bronze
        (backfill_silver_table bronze silver s e nextId).1 s e
        (backfill_silver_table bronze silver s e nextId).2).1).map
      SilverRow.stripId =
      ((backfill_silver_table bronze silver s e nextId).1).map
        SilverRow.stripId := by
  conv_lhs =>
    rw [show (backfill_silver_table bronze
        (backfill_silver_table bronze silver s e nextId).1 s e
        (backfill_silver_table bronze silver s e nextId).2).1 =
      ((backfill_silver_table bronze silver s e nextId).1).filter
          (fun r => ¬ tsBetween r.date_modified s e) ++
        assignRowIds (backfill_silver_table bronze silver s e nextId).2
          ((rank1 (bronze.filter (fun b => tsBetween b.date_modified s e))).map
            silverTransform) from rfl]
  rw [backfill_filter_out]
  conv_rhs =>
    rw [show (backfill_silver_table bronze silver s e nextId).1 =
      silver.filter (fun r => ¬ tsBetween r.date_modified s e) ++
        assignRowIds nextId
          ((rank1 (bronze.filter (fun b => tsBetween b.date_modified s e))).map
            silverTransform) from rfl]
  rw [List.map_append, List.map_append, assignRowIds_map_strip,
    assignRowIds_map_strip]

lemma assignRowIds_filter_url (u : String) : ∀ (ds : List SilverRowData) (n : Nat),
    ((assignRowIds n ds).filter (fun r => r.url = u)).map SilverRow.stripId =
      ds.filter (fun d => d.url = u) := by
  intro ds
  induction ds with
  | nil => intro n; rfl
  | cons d rest ih =>
      intro n
      simp only [assignRowIds]
      by_cases hd : d.url = u
      · rw [List.filter_cons_of_pos (by simpa using hd),
          List.filter_cons_of_pos (by simpa using hd)]
        simp only [List.map_cons, ih]
        congr 1
      · rw [List.filter_cons_of_neg (by simpa using hd),
          List.filter_cons_of_neg (by simpa using hd)]
        exact ih _

/-- C3 (confirmed). De-duplication tie-break: if the bronze source
holds exactly two rows with url `u` and distinct `date_modified`
values inside the backfill window, and the silver table's
pre-existing rows for `u` (if any) all lie inside the window (so the
delete step clears them — true in particular of a fresh silver
table), then after `backfill_silver_table` the silver table contains
exactly one row for `u`, and that row is the transformation of the
bronze row with the LATER `date_modified` (rank by `date_modified`
descending per url, keep rank 1). -/
theorem dedup_tie_break (bronze : List BronzeRow) (silver : List SilverRow)
    (s e : Timestamp) (nextId : Nat) (u : String) (b1 b2 : BronzeRow)
    (hsilver : ∀ r ∈ silver, r.url = u → tsBetween r.date_modified s e = true)
    (hw : (bronze.filter (fun b => tsBetween b.date_modified s e)).filter
        (fun b => b.url = u) = [b1, b2])
    (hlt : Timestamp.lt b1.date_modified b2.date_modified = true) :
    (((backfill_silver_table bronze silver s e nextId).1).filter
        (fun r => r.url = u)).length = 1 ∧
    (((backfill_silver_table bronze silver s e nextId).1).filter
        (fun r => r.url = u)).map SilverRow.stripId = [silverTransform b2] := by
  have hbest : bestForUrl
      (bronze.filter (fun b => tsBetween b.date_modified s e)) u = some b2 := by
    unfold bestForUrl
    rw [hw]
    simp only [List.foldl_cons, List.foldl_nil]
    simp [hlt]
  have hu : u ∈ uniqUrls (bronze.filter (fun b => tsBetween b.date_modified s e)) := by
    have hb1 : b1 ∈ (bronze.filter (fun b => tsBetween b.date_modified s e)).filter
        (fun b => b.url = u) := by
      rw [hw]
      exact List.mem_cons_self _ _
    have hm := List.mem_filter.mp hb1
    have hurl : b1.url = u := by simpa using hm.2
    have := mem_uniqUrls _ b1 hm.1
    rwa [hurl] at this
  have hmain : (((backfill_silver_table bronze silver s e nextId).1).filter
      (fun r => r.url = u)).map SilverRow.stripId = [silverTransform b2] := by
    conv_lhs =>
      rw [show (backfill_silver_table bronze silver s e nextId).1 =
        silver.filter (fun r => ¬ tsBetween r.date_modified s e) ++
          assignRowIds nextId
            ((rank1 (bronze.filter (fun b => tsBetween b.date_modified s e))).map
              silverTransform) from rfl]
    rw [List.filter_append, List.map_append]
    have hkept : (silver.filter (fun r => ¬ tsBetween r.date_modified s e)).filter
        (fun r => r.url = u) = [] := by
      apply List.filter_eq_nil_iff.mpr
      intro r hr
      have hrm := List.mem_filter.mp hr
      simp only [decide_eq_true_eq]
      intro he
      have hbet := hsilver r hrm.1 he
      have h2 := hrm.2
      simp [hbet] at h2
    rw [hkept, assignRowIds_filter_url]
    simp only [List.map_nil, List.nil_append]
    have hq : (((rank1 (bronze.filter (fun b => tsBetween b.date_modified s e))).map
        silverTransform).filter (fun d => d.url = u)) =
        ((rank1 (bronze.filter (fun b => tsBetween b.date_modified s e))).filter
          (fun b => b.url = u)).map silverTransform := by
      rw [List.filter_map]
      apply congrArg
      apply List.filter_congr
      intro b _
      rfl
    rw [hq, rank1_filter_url _ u b2 hbest hu]
    rfl
  refine ⟨?_, hmain⟩
  have hlen := congrArg List.length hmain
  simpa using hlen

/-- Witness for C3: the concrete scenario of the spec — a bronze
table with two rows for url `https://pybit.es/articles/x` dated
2021-01-05 and 2021-01-20, backfilled over the January 2021 window
into an empty silver table — leaves exactly one row for that url,
with `date_modified` 2021-01-20, `domain` `https://pybit.es` and
`category` `articles`. -/
theorem dedup_tie_break_witness :
    (((backfill_silver_table
        [⟨"https://pybit.es/articles/x", "t1", ⟨2021, 1, 1, 0, 0, 0⟩,
          ⟨2021, 1, 5, 0, 0, 0⟩, "a", [], [], ["hello world"]⟩,
         ⟨"https://pybit.es/articles/x", "t2", ⟨2021, 1, 2, 0, 0, 0⟩,
          ⟨2021, 1, 20, 0, 0, 0⟩, "a", [], [], ["hello pybites world"]⟩]
        [] ⟨2021, 1, 1, 0, 0, 0⟩ ⟨2021, 1, 31, 23, 59, 59⟩ 0).1).filter
      (fun r => r.url = "https://pybit.es/articles/x")).length = 1 ∧
    (((backfill_silver_table
        [⟨"https://pybit.es/articles/x", "t1", ⟨2021, 1, 1, 0, 0, 0⟩,
          ⟨2021, 1, 5, 0, 0, 0⟩, "a", [], [], ["hello world"]⟩,
         ⟨"https://pybit.es/articles/x", "t2", ⟨2021, 1, 2, 0, 0, 0⟩,
          ⟨2021, 1, 20, 0, 0, 0⟩, "a", [], [], ["hello pybites world"]⟩]
        [] ⟨2021, 1, 1, 0, 0, 0⟩ ⟨2021, 1, 31, 23, 59, 59⟩ 0).1).map
      SilverRow.stripId).all
        (fun d => d.date_modified = ⟨2021, 1, 20, 0, 0, 0⟩ &&
          d.domain = "https://pybit.es" && d.category = "articles") = true := by
  have h := dedup_tie_break
    [⟨"https://pybit.es/articles/x", "t1", ⟨2021, 1, 1, 0, 0, 0⟩,
      ⟨2021, 1, 5, 0, 0, 0⟩, "a", [], [], ["hello world"]⟩,
     ⟨"https://pybit.es/articles/x", "t2", ⟨2021, 1, 2, 0, 0, 0⟩,
      ⟨2021, 1, 20, 0, 0, 0⟩, "a", [], [], ["hello pybites world"]⟩]
    [] ⟨2021, 1, 1, 0, 0, 0⟩ ⟨2021, 1, 31, 23, 59, 59⟩ 0
    "https://pybit.es/articles/x"
    ⟨"https://pybit.es/articles/x", "t1", ⟨2021, 1, 1, 0, 0, 0⟩,
      ⟨2021, 1, 5, 0, 0, 0⟩, "a", [], [], ["hello world"]⟩
    ⟨"https://pybit.es/articles/x", "t2", ⟨2021, 1, 2, 0, 0, 0⟩,
      ⟨2021, 1, 20, 0, 0, 0⟩, "a", [], [], ["hello pybites world"]⟩
    (by intro r hr; simp at hr) (by decide) (by decide)
  exact ⟨h.1, by decide⟩

/-- C4 counterexample. The claim "every row inserted into the gold
table has `date_modified` inside the deleted window" is false on the
code: `fetch_silver_blogs_results` runs `select * from
silver_pybites_blogs` with no window restriction, so with the window
starting 2021-02-01 (year=2021, month=2, current date May 2025) a
silver row dated 2021-01-05 — strictly before the window — is still
translated and inserted into the gold table. -/
theorem gold_copy_counterexample :
    copy_silver_blogs_table
        [⟨0, "https://pybit.es/articles/x", "https://pybit.es", "articles",
          "articles", ⟨2021, 1, 1, 0, 0, 0⟩, ⟨2021, 1, 5, 0, 0, 0⟩, 4, "t", "a",
          [], [], ["hi"], 1, 1, 2021, 1⟩] [] 2025 5 2021 2 =
      some [toGoldRow
        ⟨0, "https://pybit.es/articles/x", "https://pybit.es", "articles",
          "articles", ⟨2021, 1, 1, 0, 0, 0⟩, ⟨2021, 1, 5, 0, 0, 0⟩, 4, "t", "a",
          [], [], ["hi"], 1, 1, 2021, 1⟩] ∧
    goldWindow 2025 5 2021 2 =
      some (⟨2021, 2, 1, 0, 0, 0⟩, ⟨2025, 5, 31, 23, 59, 59⟩) ∧
    tsBetween
      (toGoldRow
        ⟨0, "https://pybit.es/articles/x", "https://pybit.es", "articles",
          "articles", ⟨2021, 1, 1, 0, 0, 0⟩, ⟨2021, 1, 5, 0, 0, 0⟩, 4, "t", "a",
          [], [], ["hi"], 1, 1, 2021, 1⟩).date_modified
      ⟨2021, 2, 1, 0, 0, 0⟩ ⟨2025, 5, 31, 23, 59, 59⟩ = false := by
  exact ⟨by decide, by decide, by decide⟩

/-- C4 (corrected). Amended gold replication: the insert step copies
the ENTIRE silver table (no window restriction), so only rows whose
`date_modified` falls inside the deleted window are protected from
duplication; every silver row outside the window is re-inserted on
each rerun without ever being deleted, and its copies in the gold
table strictly accumulate across consecutive runs. -/
theorem gold_copy_full_table_duplicates (silver : List SilverRow)
    (gold t1 t2 : List GoldRow) (nowY nowM year month : Nat) (r : SilverRow)
    (s e : Timestamp)
    (hwin : goldWindow nowY nowM year month = some (s, e))
    (h1 : copy_silver_blogs_table silver gold nowY nowM year month = some t1)
    (h2 : copy_silver_blogs_table silver t1 nowY nowM year month = some t2)
    (hr : r ∈ silver)
    (hout : tsBetween r.date_modified s e = false) :
    t1.count (toGoldRow r) < t2.count (toGoldRow r) := by
  unfold copy_silver_blogs_table at h1 h2
  rw [hwin] at h1 h2
  have ht1 : gold.filter (fun g => ¬ tsBetween g.date_modified s e) ++
      silver.map toGoldRow = t1 := by
    simpa using h1
  have ht2 : t1.filter (fun g => ¬ tsBetween g.date_modified s e) ++
      silver.map toGoldRow = t2 := by
    simpa using h2
  have hcount1 : (t1.filter (fun g => ¬ tsBetween g.date_modified s e)).count
      (toGoldRow r) = t1.count (toGoldRow r) := by
    apply List.count_filter
    simp only [decide_eq_true_eq]
    intro hcon
    rw [show (toGoldRow r).date_modified = r.date_modified from rfl] at hcon
    rw [hcon] at hout
    exact Bool.noConfusion hout
  have hmem : toGoldRow r ∈ silver.map toGoldRow := List.mem_map_of_mem _ hr
  have hpos : 0 < (silver.map toGoldRow).count (toGoldRow r) :=
    List.count_pos_iff.mpr hmem
  calc t1.count (toGoldRow r)
      < t1.count (toGoldRow r) + (silver.map toGoldRow).count (toGoldRow r) := by
        omega
    _ = (t1.filter (fun g => ¬ tsBetween g.date_modified s e)).count (toGoldRow r)
        + (silver.map toGoldRow).count (toGoldRow r) := by rw [hcount1]
    _ = t2.count (toGoldRow r) := by rw [← ht2, List.count_append]

/-- Witness for C4 (amended): one out-of-window silver row, copied
twice into an initially empty gold table, is present once after the
first run and twice after the second. -/
theorem gold_copy_full_table_duplicates_witness :
    List.count
      (toGoldRow ⟨0, "https://pybit.es/articles/x", "https://pybit.es",
        "articles", "articles", ⟨2021, 1, 1, 0, 0, 0⟩, ⟨2021, 1, 5, 0, 0, 0⟩, 4,
        "t", "a", [], [], ["hi"], 1, 1, 2021, 1⟩)
      [toGoldRow ⟨0, "https://pybit.es/articles/x", "https://pybit.es",
        "articles", "articles", ⟨2021, 1, 1, 0, 0, 0⟩, ⟨2021, 1, 5, 0, 0, 0⟩, 4,
        "t", "a", [], [], ["hi"], 1, 1, 2021, 1⟩] <
    List.count
      (toGoldRow ⟨0, "https://pybit.es/articles/x", "https://pybit.es",
        "articles", "articles", ⟨2021, 1, 1, 0, 0, 0⟩, ⟨2021, 1, 5, 0, 0, 0⟩, 4,
        "t", "a", [], [], ["hi"], 1, 1, 2021, 1⟩)
      [toGoldRow ⟨0, "https://pybit.es/articles/x", "https://pybit.es",
        "articles", "articles", ⟨2021, 1, 1, 0, 0, 0⟩, ⟨2021, 1, 5, 0, 0, 0⟩, 4,
        "t", "a", [], [], ["hi"], 1, 1, 2021, 1⟩,
       toGoldRow ⟨0, "https://pybit.es/articles/x", "https://pybit.es",
        "articles", "articles", ⟨2021, 1, 1, 0, 0, 0⟩, ⟨2021, 1, 5, 0, 0, 0⟩, 4,
        "t", "a", [], [], ["hi"], 1, 1, 2021, 1⟩] := by
  apply gold_copy_full_table_duplicates
    [⟨0, "https://pybit.es/articles/x", "https://pybit.es", "articles",
      "articles", ⟨2021, 1, 1, 0, 0, 0⟩, ⟨2021, 1, 5, 0, 0, 0⟩, 4, "t", "a",
      [], [], ["hi"], 1, 1, 2021, 1⟩] [] _ _ 2025 5 2021 2
    ⟨0, "https://pybit.es/articles/x", "https://pybit.es", "articles",
      "articles", ⟨2021, 1, 1, 0, 0, 0⟩, ⟨2021, 1, 5, 0, 0, 0⟩, 4, "t", "a",
      [], [], ["hi"], 1, 1, 2021, 1⟩
    ⟨2021, 2, 1, 0, 0, 0⟩ ⟨2025, 5, 31, 23, 59, 59⟩
  · decide
  · decide
  · decide
  · decide
  · decide
